import Mathlib

/-!
# Verification of the M2Sim calibration / accuracy-report pipeline

Shallow embedding of the pure computational core of
`benchmarks/native/accuracy_report.py`, `benchmarks/native/embench_calibration.py`
and `scripts/h5_accuracy_calculation.py`.

Python floats are modelled as rationals; the value `float('inf')` that the
comparator's error function can return is modelled by an explicit `PFloat`
type with an infinity constructor.  Python's `ZeroDivisionError` is modelled
by a fallible division returning `Except`.
-/

namespace M2Sim

/-- A Python float value restricted to the values that actually arise in the
error pipeline: a finite rational or `+infinity`. -/
inductive PFloat where
  | inf : PFloat
  | fin : ℚ → PFloat
deriving DecidableEq, Repr

/-- Addition on `PFloat`, following IEEE float behaviour for `+inf`:
anything plus infinity is infinity. -/
def PFloat.add : PFloat → PFloat → PFloat
  | .inf, _ => .inf
  | _, .inf => .inf
  | .fin a, .fin b => .fin (a + b)

/-- Division of a `PFloat` by a positive count (used for averaging):
`inf / n = inf`. -/
def PFloat.divNat (x : PFloat) (n : ℕ) : PFloat :=
  match x with
  | .inf => .inf
  | .fin q => .fin (q / n)

/-- Sum of a list of `PFloat`s, as Python's `sum` over floats. -/
def psum (l : List PFloat) : PFloat :=
  l.foldr PFloat.add (.fin 0)

/-- Python's builtin `min` on two floats (returns the first argument on a
tie). -/
def pymin (a b : ℚ) : ℚ := if a ≤ b then a else b

/-- Python's builtin `abs` on a float. -/
def pyabs (a : ℚ) : ℚ := if a < 0 then -a else a

/-- `accuracy_report.calculate_error`:
`if min(t_sim, t_real) == 0: return float('inf'); return abs(t_sim - t_real) / min(t_sim, t_real)`. -/
def calculate_error (t_sim t_real : ℚ) : PFloat :=
  if pymin t_sim t_real = 0 then .inf
  else .fin (pyabs (t_sim - t_real) / pymin t_sim t_real)

/-- Python division: raises `ZeroDivisionError` on a zero divisor. -/
def pydiv (a b : ℚ) : Except Unit ℚ :=
  if b = 0 then .error () else .ok (a / b)

/-- `h5_accuracy_calculation.calculate_error`:
`return abs(sim_val - real_val) / min(sim_val, real_val)` — no guard against
a zero minimum, so the division itself can raise. -/
def h5_calculate_error (sim_val real_val : ℚ) : Except Unit ℚ :=
  pydiv (pyabs (sim_val - real_val)) (pymin sim_val real_val)

/-- `h5_accuracy_calculation.cpi_to_latency_ns`. -/
def cpi_to_latency_ns (cpi : ℚ) (freq_ghz : ℚ := 7/2) : ℚ :=
  cpi / freq_ghz

/-- `embench_calibration.linear_regression`, the pure-Python path (the scipy
branch computes the same least-squares fit and is an optional external
accelerator).  Returns `(slope, intercept, r_squared)`. -/
def linear_regression (x y : List ℚ) : ℚ × ℚ × ℚ :=
  let n : ℚ := x.length
  let sx := x.sum
  let sy := y.sum
  let sxy := (List.zipWith (fun a b => a * b) x y).sum
  let sx2 := (x.map (fun a => a * a)).sum
  let d := n * sx2 - sx * sx
  if pyabs d < 1 / 10 ^ 15 then
    (0, if x.length = 0 then 0 else sy / n, 0)
  else
    let slope := (n * sxy - sx * sy) / d
    let intercept := (sy - slope * sx) / n
    let ym := sy / n
    let ss_tot := (y.map (fun yi => (yi - ym) ^ 2)).sum
    let ss_res := (List.zipWith (fun xi yi => (yi - (slope * xi + intercept)) ^ 2) x y).sum
    let r2 := if ss_tot > 0 then 1 - ss_res / ss_tot else 0
    (slope, intercept, r2)

/-- The reference least-squares slope exactly as the specification states it:
`slope = (nΣxy − ΣxΣy) / (nΣx² − (Σx)²)`. -/
def spec_slope (x y : List ℚ) : ℚ :=
  ((x.length : ℚ) * (List.zipWith (fun a b => a * b) x y).sum - x.sum * y.sum) /
    ((x.length : ℚ) * (x.map (fun a => a * a)).sum - x.sum * x.sum)

/-- The reference intercept as the specification states it:
`intercept = (Σy − slope·Σx)/n`. -/
def spec_intercept (x y : List ℚ) : ℚ :=
  (y.sum - spec_slope x y * x.sum) / (x.length : ℚ)

/-- The reference `R² = 1 − SS_res/SS_tot`, with fitted values from the
reference slope and intercept and `ȳ` the mean of the y-samples. -/
def spec_r2 (x y : List ℚ) : ℚ :=
  1 - (List.zipWith (fun xi yi =>
        (yi - (spec_slope x y * xi + spec_intercept x y)) ^ 2) x y).sum /
      (y.map (fun yi => (yi - y.sum / (y.length : ℚ)) ^ 2)).sum

/-- The scaled variance `n·Σl² − (Σl)²` of a list, the regression's
denominator. -/
def listD (l : List ℚ) : ℚ :=
  (l.length : ℚ) * (l.map (fun b => b * b)).sum - l.sum * l.sum

/-- One collected data point of `calibrate_benchmark`:
`{"reps": reps, "instructions": insts, "time_ms": avg_ms}` where the
instruction count is `None` when the PMU is unavailable. -/
structure Measurement where
  reps : ℕ
  instructions : Option ℕ
  time_ms : ℚ
deriving DecidableEq, Repr

/-- `embench_calibration.CalibrationResult` (the `data_points` payload is
omitted; it is carried through unchanged). -/
structure CalibrationResult where
  benchmark : String
  instruction_latency_ns : ℚ
  overhead_ms : ℚ
  r_squared : ℚ
deriving DecidableEq, Repr

/-- `embench_calibration.INSTS_PER_REP`: known instructions per `benchmark()`
call, the static fallback lookup used when PMU counters are unavailable. -/
def INSTS_PER_REP : String → Option ℕ := fun b =>
  if b = "aha-mont64" then some 22753
  else if b = "crc32" then some 13156
  else if b = "edn" then some 34802
  else if b = "huffbench" then some 74965
  else if b = "matmult-int" then some 36270
  else if b = "statemate" then some 21603
  else if b = "primecount" then some 15233
  else none

/-- The pure tail of `embench_calibration.calibrate_benchmark` acting on the
data points it collected: the `< 3` guard, the choice between instruction- and
reps-based regression, and the rescaling of the slope to ns/instruction.
`instr_list` collects the non-`None` instruction counts in order, `time_list`
and `reps_list` collect every data point, exactly as the collection loop does. -/
def calibrate_from_data (bench : String) (data_points : List Measurement) :
    Option CalibrationResult :=
  if data_points.length < 3 then none
  else
    let instr_list := data_points.filterMap (fun m => m.instructions)
    let time_list := data_points.map (fun m => m.time_ms)
    let reps_list := data_points.map (fun m => (m.reps : ℚ))
    if 3 ≤ instr_list.length then
      let fit := linear_regression (instr_list.map (fun i : ℕ => (i : ℚ))) time_list
      some ⟨bench, fit.1 * 1000000, fit.2.1, fit.2.2⟩
    else
      let fit := linear_regression reps_list time_list
      let ipr : ℚ := ((INSTS_PER_REP bench).getD 30000 : ℕ)
      some ⟨bench, fit.1 / ipr * 1000000, fit.2.1, fit.2.2⟩

/-- `embench_calibration.trimmed_mean` at the default `trim_pct = 0.2`.
`int(n * 0.2)` equals `n / 5` in integer arithmetic (the double product
`n * 0.2` always lies in `[⌊n/5⌋, ⌊n/5⌋ + 1)` for list lengths). -/
def trimmed_mean (values : List ℚ) : ℚ :=
  if values.length < 3 then values.sum / values.length
  else
    let s := List.insertionSort (fun a b => a ≤ b) values
    let n := s.length
    let tc := n / 5
    let trimmed := if 0 < tc then (s.drop tc).take (n - 2 * tc) else s
    if trimmed ≠ [] then trimmed.sum / trimmed.length else s.sum / n

/-- The trimmed mean as the specification words it: sort ascending, remove
the bottom `⌊0.2·n⌋` elements and the top `⌊0.2·n⌋` elements by value, and
take the plain mean of what remains. -/
def trimmed_mean_claim (values : List ℚ) : ℚ :=
  let s := List.insertionSort (fun a b => a ≤ b) values
  let k := s.length / 5
  let kept := (s.drop k).rdrop k
  kept.sum / kept.length

/-- `accuracy_report.fallback_cpis`: the static fallback CPI table, in its
source order. -/
def fallback_cpis : List (String × ℚ) :=
  [("arithmetic", 0.27), ("dependency", 1.02), ("branch", 1.32),
   ("memorystrided", 2.7), ("loadheavy", 0.361), ("storeheavy", 0.361),
   ("branchheavy", 0.829), ("vectorsum", 0.500), ("vectoradd", 0.401),
   ("reductiontree", 0.452), ("strideindirect", 0.708),
   ("atax", 0.41), ("bicg", 0.43), ("mvt", 0.41), ("jacobi-1d", 0.42),
   ("gemm", 0.41), ("2mm", 0.39), ("3mm", 0.40),
   ("aha-mont64", 0.42), ("crc32-embench", 0.40), ("edn", 0.41),
   ("huffbench", 0.43), ("matmult-int", 0.42), ("statemate", 0.40),
   ("primecount", 0.41)]

/-- `accuracy_report.dcache_benchmarks`: the benchmarks designated
memory-latency-sensitive, for which the D-cache run takes precedence. -/
def dcache_benchmarks : List String := ["memorystrided"]

/-- The per-key precedence of the merge loop of
`accuracy_report.get_simulator_cpi_for_benchmarks` (lines 376-389): D-cache
(if the benchmark is designated memory-latency-sensitive and present), then
PolyBench, then EmBench, then no-cache.  Each per-suite CPI map is a partial
map from benchmark name to the CPI parsed from that suite's output. -/
def merge_choice (dcache_cpis polybench_cpis embench_cpis no_cache_cpis :
    String → Option ℚ) (short_name : String) : Option ℚ :=
  if short_name ∈ dcache_benchmarks ∧ (dcache_cpis short_name).isSome then
    dcache_cpis short_name
  else if (polybench_cpis short_name).isSome then polybench_cpis short_name
  else if (embench_cpis short_name).isSome then embench_cpis short_name
  else no_cache_cpis short_name

/-- The whole merge loop: apply `merge_choice` to every key of the fallback
table, skipping keys found in no suite. -/
def merge_cpis (dcache_cpis polybench_cpis embench_cpis no_cache_cpis :
    String → Option ℚ) : List (String × ℚ) :=
  fallback_cpis.filterMap (fun p =>
    (merge_choice dcache_cpis polybench_cpis embench_cpis no_cache_cpis p.1).map
      (fun c => (p.1, c)))

/-- `accuracy_report.get_simulator_cpi_for_benchmarks`, final merge step
(lines 391-396): if the merged map is empty, the entire fallback table is
returned instead. -/
def get_simulator_cpi_for_benchmarks (dcache_cpis polybench_cpis embench_cpis
    no_cache_cpis : String → Option ℚ) : List (String × ℚ) :=
  let cpis := merge_cpis dcache_cpis polybench_cpis embench_cpis no_cache_cpis
  if cpis = [] then fallback_cpis else cpis

/-- One entry of the calibration-results input consumed by
`accuracy_report.compare_benchmarks`. -/
structure CalResultEntry where
  benchmark : String
  description : String
  instruction_latency_ns : ℚ
  r_squared : ℚ
  calibrated : Bool
deriving DecidableEq, Repr

/-- `accuracy_report.loop_overhead_adjustment`: the static normalization
table mapping a benchmark to
`(calibration_insts_per_iter, simulator_insts_per_pass)`. -/
def loop_overhead_adjustment : String → Option (ℕ × ℕ) := fun b =>
  if b = "loadheavy" then some (20, 23)
  else if b = "storeheavy" then some (20, 23)
  else if b = "vectorsum" then some (100, 96)
  else if b = "vectoradd" then some (165, 162)
  else if b = "strideindirect" then some (50, 49)
  else none

/-- `accuracy_report.BenchmarkComparison`. -/
structure BenchmarkComparison where
  name : String
  description : String
  real_latency_ns : ℚ
  real_r_squared : ℚ
  sim_cpi : ℚ
  sim_latency_ns : ℚ
  error : PFloat
  calibrated : Bool
deriving DecidableEq, Repr

/-- One iteration of the loop of `accuracy_report.compare_benchmarks`:
skip the entry when no simulator CPI is present; otherwise apply the
normalization adjustment (when configured) to the real latency, convert the
CPI to a latency at the assumed frequency, and compute the error. -/
def compare_one (simulator_cpis : String → Option ℚ)
    (assumed_frequency_ghz : ℚ) (r : CalResultEntry) :
    Option BenchmarkComparison :=
  match simulator_cpis r.benchmark with
  | none => none
  | some sim_cpi =>
    let real_latency_ns :=
      match loop_overhead_adjustment r.benchmark with
      | some (cal_insts, sim_insts) =>
          r.instruction_latency_ns * cal_insts / sim_insts
      | none => r.instruction_latency_ns
    let sim_latency_ns := sim_cpi / assumed_frequency_ghz
    some { name := r.benchmark
           description := r.description
           real_latency_ns := real_latency_ns
           real_r_squared := r.r_squared
           sim_cpi := sim_cpi
           sim_latency_ns := sim_latency_ns
           error := calculate_error sim_latency_ns real_latency_ns
           calibrated := r.calibrated }

/-- `accuracy_report.compare_benchmarks` over the merged calibration entries. -/
def compare_benchmarks (calibration_results : List CalResultEntry)
    (simulator_cpis : String → Option ℚ)
    (assumed_frequency_ghz : ℚ := 7/2) : List BenchmarkComparison :=
  calibration_results.filterMap (compare_one simulator_cpis assumed_frequency_ghz)

/-- Outcome of one simulator invocation in the retry loops of
`accuracy_report.get_simulator_cpi_for_benchmarks`: the process ran and its
output parsed to a CPI (or to nothing), or it timed out, or it failed. -/
inductive AttemptResult where
  | ok (parsed_cpi : Option ℚ)
  | timeout
  | failure
deriving DecidableEq, Repr

/-- The retry loop `for attempt in range(max_retries + 1)` of the PolyBench /
EmBench acquirer, over the list of that benchmark's attempt outcomes (one per
allowed attempt, so of length `max_retries + 1`): a run that completes breaks
out of the loop with whatever CPI its output parsed to; a timeout or failure
on any attempt but the last retries; a timeout or failure on the last attempt
substitutes the configured fallback CPI when one exists. -/
def acquire_cpi (fallback : Option ℚ) : List AttemptResult → Option ℚ
  | [] => none
  | [a] =>
    match a with
    | .ok parsed => parsed
    | _ => fallback
  | a :: rest =>
    match a with
    | .ok parsed => parsed
    | _ => acquire_cpi fallback rest

/-- The calibrated-only average error of
`accuracy_report.generate_json_results` (and of `main` / the markdown
report): `sum(cal_errors) / len(cal_errors) if cal_errors else 0` over the
comparisons whose `calibrated` flag is set. -/
def summary_average_error (comparisons : List BenchmarkComparison) : PFloat :=
  let cal_errors := (comparisons.filter (fun c => c.calibrated)).map (fun c => c.error)
  if cal_errors = [] then .fin 0
  else (psum cal_errors).divNat cal_errors.length

/-! ## Helper lemmas -/

/-- `pymin` is symmetric. -/
lemma pymin_comm (a b : ℚ) : pymin a b = pymin b a := by
  unfold pymin
  split_ifs with h1 h2 h2
  · exact le_antisymm h1 h2
  · rfl
  · rfl
  · exact absurd (le_of_not_le h1) h2

/-- `pymin` of equal arguments. -/
lemma pymin_self (a : ℚ) : pymin a a = a := by simp [pymin]

/-- `pyabs` of a difference is symmetric. -/
lemma pyabs_sub_comm (a b : ℚ) : pyabs (a - b) = pyabs (b - a) := by
  unfold pyabs
  split_ifs <;> linarith

/-- `pyabs` agrees with the mathematical absolute value. -/
lemma pyabs_eq_abs (a : ℚ) : pyabs a = |a| := by
  unfold pyabs
  split_ifs with h
  · rw [abs_of_neg h]
  · rw [abs_of_nonneg (le_of_not_lt h)]

/-- Sum of a constant list. -/
lemma sum_of_const (x : List ℚ) (c : ℚ) (h : ∀ a ∈ x, a = c) :
    x.sum = x.length * c := by
  induction x with
  | nil => simp
  | cons a t ih =>
    have ha : a = c := h a (by simp)
    have ht : ∀ b ∈ t, b = c := fun b hb => h b (by simp [hb])
    rw [List.sum_cons, ih ht, ha, List.length_cons]
    push_cast
    ring

/-- Sum of squares of a constant list. -/
lemma sum_sq_of_const (x : List ℚ) (c : ℚ) (h : ∀ a ∈ x, a = c) :
    (x.map (fun a => a * a)).sum = x.length * (c * c) := by
  have := sum_of_const (x.map (fun a => a * a)) (c * c) (by
    intro a ha
    obtain ⟨b, hb, rfl⟩ := List.mem_map.mp ha
    rw [h b hb])
  simpa using this

/-- Expansion of a sum of squared differences against a fixed value. -/
lemma sq_sub_expand (a : ℚ) (l : List ℚ) :
    (l.map (fun b => (a - b) * (a - b))).sum =
      (l.length : ℚ) * (a * a) - 2 * a * l.sum + (l.map (fun b => b * b)).sum := by
  induction l with
  | nil => simp
  | cons c t ih =>
    simp only [List.map_cons, List.sum_cons, List.length_cons, ih]
    push_cast
    ring

/-- Recursion identity for the regression denominator: consing an element
adds its total squared distance to the rest of the list. -/
lemma listD_cons (a : ℚ) (l : List ℚ) :
    listD (a :: l) = listD l + (l.map (fun b => (a - b) * (a - b))).sum := by
  simp only [listD, List.map_cons, List.sum_cons, List.length_cons, sq_sub_expand]
  push_cast
  ring

/-- A sum of products of an element with itself is nonnegative. -/
lemma sum_sq_map_nonneg (f : ℚ → ℚ) (l : List ℚ) :
    0 ≤ (l.map (fun b => f b * f b)).sum := by
  apply List.sum_nonneg
  intro x hx
  obtain ⟨b, _, rfl⟩ := List.mem_map.mp hx
  exact mul_self_nonneg _

/-- The regression denominator is nonnegative. -/
lemma listD_nonneg (l : List ℚ) : 0 ≤ listD l := by
  induction l with
  | nil => simp [listD]
  | cons a t ih =>
    rw [listD_cons]
    exact add_nonneg ih (sum_sq_map_nonneg (fun b => a - b) t)

/-- The regression denominator is strictly positive as soon as two list
elements differ. -/
lemma listD_pos (l : List ℚ) (a b : ℚ) (ha : a ∈ l) (hb : b ∈ l) (hab : a ≠ b) :
    0 < listD l := by
  induction l with
  | nil => simp at ha
  | cons c t ih =>
    rw [listD_cons]
    rcases List.mem_cons.mp ha with rfl | hat
    · rcases List.mem_cons.mp hb with rfl | hbt
      · exact absurd rfl hab
      · have h1 : (a - b) * (a - b) ≤ (t.map (fun x => (a - x) * (a - x))).sum :=
          List.single_le_sum (fun x hx => by
            obtain ⟨y, _, rfl⟩ := List.mem_map.mp hx
            exact mul_self_nonneg _) _ (List.mem_map_of_mem _ hbt)
        have h2 : 0 < (a - b) * (a - b) :=
          mul_self_pos.mpr (sub_ne_zero.mpr hab)
        linarith [listD_nonneg t]
    · rcases List.mem_cons.mp hb with rfl | hbt
      · have h1 : (b - a) * (b - a) ≤ (t.map (fun x => (b - x) * (b - x))).sum :=
          List.single_le_sum (fun x hx => by
            obtain ⟨y, _, rfl⟩ := List.mem_map.mp hx
            exact mul_self_nonneg _) _ (List.mem_map_of_mem _ hat)
        have h2 : 0 < (b - a) * (b - a) :=
          mul_self_pos.mpr (sub_ne_zero.mpr (Ne.symm hab))
        linarith [listD_nonneg t]
      · exact add_pos_of_pos_of_nonneg (ih hat hbt)
          (sum_sq_map_nonneg (fun x => c - x) t)

/-- Cast of a natural list sum. -/
lemma cast_sum_nat (xs : List ℕ) :
    (xs.map (fun v : ℕ => (v : ℚ))).sum = ((xs.sum : ℕ) : ℚ) := by
  induction xs with
  | nil => simp
  | cons a t ih =>
    rw [List.map_cons, List.sum_cons, ih, List.sum_cons]
    push_cast
    ring

/-- Cast of a natural list sum of squares. -/
lemma cast_sumsq_nat (xs : List ℕ) :
    (xs.map (fun v : ℕ => (v : ℚ) * (v : ℚ))).sum =
      (((xs.map (fun v => v * v)).sum : ℕ) : ℚ) := by
  induction xs with
  | nil => simp
  | cons a t ih =>
    rw [List.map_cons, List.sum_cons, ih, List.map_cons, List.sum_cons]
    push_cast
    ring

/-- For integer-valued samples with two distinct values, the regression
denominator is not merely nonzero but at least 1, so it clears the code's
`1e-15` degeneracy threshold. -/
lemma d_ge_one (xs : List ℕ) (a b : ℕ) (ha : a ∈ xs) (hb : b ∈ xs)
    (hab : a ≠ b) :
    1 ≤ (xs.length : ℚ) * (xs.map (fun v : ℕ => (v : ℚ) * (v : ℚ))).sum -
        (xs.map (fun v : ℕ => (v : ℚ))).sum * (xs.map (fun v : ℕ => (v : ℚ))).sum := by
  have hpos : 0 < listD (xs.map (fun v : ℕ => (v : ℚ))) :=
    listD_pos _ (a : ℚ) (b : ℚ) (List.mem_map_of_mem _ ha)
      (List.mem_map_of_mem _ hb) (by exact_mod_cast hab)
  have hmm : List.map (fun b => b * b) (List.map (fun v : ℕ => (v : ℚ)) xs) =
      List.map (fun v : ℕ => (v : ℚ) * (v : ℚ)) xs := by
    rw [List.map_map]
    rfl
  have hd_eq : listD (xs.map (fun v : ℕ => (v : ℚ))) =
      (xs.length : ℚ) * (xs.map (fun v : ℕ => (v : ℚ) * (v : ℚ))).sum -
        (xs.map (fun v : ℕ => (v : ℚ))).sum * (xs.map (fun v : ℕ => (v : ℚ))).sum := by
    unfold listD
    rw [List.length_map, hmm]
  rw [hd_eq, cast_sum_nat, cast_sumsq_nat] at hpos
  rw [cast_sum_nat, cast_sumsq_nat]
  have hlt : (xs.sum * xs.sum : ℕ) < xs.length * (xs.map (fun v => v * v)).sum := by
    have hc : ((xs.sum * xs.sum : ℕ) : ℚ) <
        ((xs.length * (xs.map (fun v => v * v)).sum : ℕ) : ℚ) := by
      rw [Nat.cast_mul, Nat.cast_mul]
      linarith
    exact_mod_cast hc
  have hle : xs.sum * xs.sum + 1 ≤ xs.length * (xs.map (fun v => v * v)).sum :=
    Nat.succ_le_of_lt hlt
  have h2 : ((xs.sum * xs.sum + 1 : ℕ) : ℚ) ≤
      ((xs.length * (xs.map (fun v => v * v)).sum : ℕ) : ℚ) := by
    exact_mod_cast hle
  rw [Nat.cast_add, Nat.cast_mul, Nat.cast_mul, Nat.cast_one] at h2
  linarith

/-- Sum of an affine image of a list. -/
lemma sum_map_affine (x : List ℚ) (p q : ℚ) :
    (x.map (fun t => p + q * t)).sum = (x.length : ℚ) * p + q * x.sum := by
  induction x with
  | nil => simp
  | cons c t ih =>
    rw [List.map_cons, List.sum_cons, ih, List.sum_cons, List.length_cons]
    push_cast
    ring

/-- Sum of products of samples with an affine image of themselves. -/
lemma sum_map_mul_affine (x : List ℚ) (p q : ℚ) :
    (x.map (fun t => t * (p + q * t))).sum =
      p * x.sum + q * (x.map (fun t => t * t)).sum := by
  induction x with
  | nil => simp
  | cons c t ih =>
    rw [List.map_cons, List.sum_cons, ih, List.sum_cons, List.map_cons,
      List.sum_cons]
    ring

/-- Sum of scaled squared deviations from a fixed value. -/
lemma sum_map_sq_shift (x : List ℚ) (q c : ℚ) :
    (x.map (fun t => (q * (t - c)) ^ 2)).sum =
      q ^ 2 * ((x.map (fun t => t * t)).sum - 2 * c * x.sum +
        (x.length : ℚ) * (c * c)) := by
  induction x with
  | nil => simp
  | cons d t ih =>
    rw [List.map_cons, List.sum_cons, ih, List.sum_cons, List.map_cons,
      List.sum_cons, List.length_cons]
    push_cast
    ring

/-- On exact affine data `y = p + q·x` with a non-degenerate denominator, the
regression recovers slope `q`, intercept `p` and `R² = 1` exactly. -/
lemma linear_regression_affine (x : List ℚ) (p q : ℚ) (hq : q ≠ 0)
    (hd1 : 1 ≤ (x.length : ℚ) * (x.map (fun a => a * a)).sum - x.sum * x.sum)
    (hn : x ≠ []) :
    linear_regression x (x.map (fun t => p + q * t)) = (q, p, 1) := by
  have hN : (0 : ℚ) < x.length := by
    have := List.length_pos.mpr hn
    exact_mod_cast this
  have hN0 : (x.length : ℚ) ≠ 0 := ne_of_gt hN
  simp only [linear_regression, List.zipWith_map_right, List.zipWith_same,
    List.map_map, Function.comp_def]
  rw [sum_map_affine x p q, sum_map_mul_affine x p q]
  set N := (x.length : ℚ) with hNdef
  set SX := x.sum with hSXdef
  set SQ := (x.map (fun a => a * a)).sum with hSQdef
  have hD0 : N * SQ - SX * SX ≠ 0 := by linarith
  have hDnn : ¬ (N * SQ - SX * SX < 0) := by linarith
  have hcond : ¬ pyabs (N * SQ - SX * SX) < 1 / 10 ^ 15 := by
    unfold pyabs
    rw [if_neg hDnn]
    intro hlt
    have h15 : (1 : ℚ) / 10 ^ 15 < 1 := by norm_num
    linarith
  rw [if_neg hcond]
  have hslope : (N * (p * SX + q * SQ) - SX * (N * p + q * SX)) /
      (N * SQ - SX * SX) = q := by
    rw [show N * (p * SX + q * SQ) - SX * (N * p + q * SX) =
      q * (N * SQ - SX * SX) by ring]
    rw [mul_div_assoc, div_self hD0, mul_one]
  rw [hslope]
  have hint : (N * p + q * SX - q * SX) / N = p := by
    rw [show N * p + q * SX - q * SX = N * p by ring, mul_comm,
      mul_div_assoc, div_self hN0, mul_one]
  rw [hint]
  have hres : (x.map (fun t => (p + q * t - (q * t + p)) ^ 2)).sum = 0 := by
    rw [List.map_congr_left (fun t _ => by ring :
      ∀ t ∈ x, (p + q * t - (q * t + p)) ^ 2 = (fun _ => (0 : ℚ)) t)]
    simp
  rw [hres]
  have hym : ∀ t ∈ x, (p + q * t - (N * p + q * SX) / N) ^ 2 =
      (q * (t - SX / N)) ^ 2 := by
    intro t _
    congr 1
    field_simp
    ring
  have htot : (x.map (fun t => (p + q * t - (N * p + q * SX) / N) ^ 2)).sum =
      q ^ 2 * (SQ - 2 * (SX / N) * SX + N * (SX / N * (SX / N))) := by
    rw [List.map_congr_left hym]
    exact sum_map_sq_shift x q (SX / N)
  rw [htot]
  have htotpos : 0 < q ^ 2 * (SQ - 2 * (SX / N) * SX + N * (SX / N * (SX / N))) := by
    have hq2 : 0 < q ^ 2 := by positivity
    have hval : SQ - 2 * (SX / N) * SX + N * (SX / N * (SX / N)) =
        (N * SQ - SX * SX) / N := by
      field_simp
      ring
    rw [hval]
    exact mul_pos hq2 (div_pos (by linarith) hN)
  rw [if_pos htotpos]
  norm_num

/-- Collecting the instruction counts of exact synthetic data points returns
the instruction list itself. -/
lemma filterMap_instructions (rs : ℕ) (f : ℕ → ℚ) (xs : List ℕ) :
    (xs.map (fun v => (⟨rs, some v, f v⟩ : Measurement))).filterMap
      (fun m => m.instructions) = xs := by
  induction xs with
  | nil => rfl
  | cons c t ih =>
    rw [List.map_cons, List.filterMap_cons]
    simp [ih]

/-! ## Theorems for the claims -/

/-- C9: for positive `a, b`, the comparator's error function is symmetric,
`error(a, b) = error(b, a)`, and `error(a, a) = 0`. -/
theorem calculate_error_symm_self (a b : ℚ) (ha : 0 < a) (_hb : 0 < b) :
    calculate_error a b = calculate_error b a ∧
    calculate_error a a = PFloat.fin 0 := by
  constructor
  · unfold calculate_error
    rw [pymin_comm b a, pyabs_sub_comm b a]
  · unfold calculate_error
    rw [pymin_self, if_neg (ne_of_gt ha)]
    simp [pyabs]

/-- Witness for C9 at `a = 2`, `b = 3`. -/
theorem calculate_error_symm_self_witness :
    calculate_error 2 3 = calculate_error 3 2 ∧
    calculate_error 2 2 = PFloat.fin 0 :=
  calculate_error_symm_self 2 3 (by norm_num) (by norm_num)

/-- C1 counterexample: the pipeline's error computation in
`h5_accuracy_calculation.py` does NOT return `+infinity` on a zero minimum —
at `(sim, real) = (1, 0)` it raises `ZeroDivisionError` (modelled as
`Except.error`), so it returns no value at all. -/
theorem h5_error_zero_min_raises :
    h5_calculate_error 1 0 = Except.error () ∧
    ∀ q : ℚ, h5_calculate_error 1 0 ≠ Except.ok q := by
  have h : h5_calculate_error 1 0 = Except.error () := by
    norm_num [h5_calculate_error, pydiv, pymin, pyabs]
  exact ⟨h, fun q hq => by rw [h] at hq; exact Except.noConfusion hq⟩

/-- C1 amended: the comparator's `calculate_error` in `accuracy_report.py`
returns `|sim − real| / min(sim, real)` and `+infinity` whenever the minimum
is exactly zero, never raising; the `calculate_error` of
`h5_accuracy_calculation.py` computes the same quotient but divides directly,
returning it only when the minimum is nonzero and raising `ZeroDivisionError`
when the minimum is zero. -/
theorem calculate_error_amended (t_sim t_real : ℚ) :
    (pymin t_sim t_real = 0 → calculate_error t_sim t_real = PFloat.inf) ∧
    (pymin t_sim t_real ≠ 0 →
      calculate_error t_sim t_real =
        PFloat.fin (pyabs (t_sim - t_real) / pymin t_sim t_real) ∧
      h5_calculate_error t_sim t_real =
        Except.ok (pyabs (t_sim - t_real) / pymin t_sim t_real)) ∧
    (pymin t_sim t_real = 0 → h5_calculate_error t_sim t_real = Except.error ()) := by
  refine ⟨fun h => ?_, fun h => ⟨?_, ?_⟩, fun h => ?_⟩ <;>
    simp [calculate_error, h5_calculate_error, pydiv, h]

/-- Witness for C1's amended claim at `(5, 0)` and `(3, 2)`. -/
theorem calculate_error_amended_witness :
    calculate_error 5 0 = PFloat.inf ∧
    calculate_error 3 2 = PFloat.fin (pyabs ((3 : ℚ) - 2) / pymin (3 : ℚ) 2) ∧
    h5_calculate_error 5 0 = Except.error () :=
  ⟨(calculate_error_amended 5 0).1 (by norm_num [pymin]),
   ((calculate_error_amended 3 2).2.1 (by norm_num [pymin])).1,
   (calculate_error_amended 5 0).2.2 (by norm_num [pymin])⟩

/-- C3: calibration returns no `CalibrationResult` when fewer than 3 data
points were collected, and returns one when there are at least 3. -/
theorem calibrate_point_threshold (bench : String) (data : List Measurement) :
    (data.length < 3 → calibrate_from_data bench data = none) ∧
    (3 ≤ data.length → (calibrate_from_data bench data).isSome = true) := by
  constructor
  · intro h
    simp [calibrate_from_data, h]
  · intro h
    have h3 : ¬ data.length < 3 := by omega
    simp only [calibrate_from_data, if_neg h3]
    split <;> simp

/-- Witness for C3 with 0 data points and with 3 data points. -/
theorem calibrate_point_threshold_witness :
    calibrate_from_data "edn" [] = none ∧
    (calibrate_from_data "edn"
      [⟨1, none, 1⟩, ⟨2, none, 2⟩, ⟨3, none, 3⟩]).isSome = true :=
  ⟨(calibrate_point_threshold "edn" []).1 (by simp),
   (calibrate_point_threshold "edn" _).2 (by simp)⟩

/-- C7: when all x-values are identical the regression's denominator is zero,
the degenerate branch is taken, and slope and R² are both 0 — the regression
is a total function, so no exception can occur. -/
theorem linear_regression_degenerate (x y : List ℚ) (c : ℚ)
    (hc : ∀ a ∈ x, a = c) :
    (linear_regression x y).1 = 0 ∧ (linear_regression x y).2.2 = 0 := by
  have hs := sum_of_const x c hc
  have hs2 := sum_sq_of_const x c hc
  have hd : ((x.length : ℚ)) * (x.map (fun a => a * a)).sum - x.sum * x.sum = 0 := by
    rw [hs, hs2]; ring
  simp only [linear_regression, hd]
  norm_num [pyabs]

/-- Witness for C7 at `x = [7, 7]`, `y = [1, 2]`. -/
theorem linear_regression_degenerate_witness :
    (linear_regression [7, 7] [1, 2]).1 = 0 ∧
    (linear_regression [7, 7] [1, 2]).2.2 = 0 :=
  linear_regression_degenerate [7, 7] [1, 2] 7 (by
    intro a ha
    simp at ha
    exact ha)

/-- C5: the comparator applies the configured normalization adjustment —
adjusted latency = raw latency × calibration instructions / simulator
instructions — to the real latency before the error is computed, and passes
the raw latency through unchanged when no adjustment is configured; in both
cases the error is computed from the (possibly adjusted) latency, never from
anything computed afterwards. -/
theorem compare_one_normalization (cpis : String → Option ℚ) (freq : ℚ)
    (r : CalResultEntry) (cpi : ℚ) (hc : cpis r.benchmark = some cpi) :
    (∀ cal_insts sim_insts : ℕ,
      loop_overhead_adjustment r.benchmark = some (cal_insts, sim_insts) →
      compare_one cpis freq r = some
        { name := r.benchmark, description := r.description,
          real_latency_ns := r.instruction_latency_ns * cal_insts / sim_insts,
          real_r_squared := r.r_squared, sim_cpi := cpi,
          sim_latency_ns := cpi / freq,
          error := calculate_error (cpi / freq)
            (r.instruction_latency_ns * cal_insts / sim_insts),
          calibrated := r.calibrated }) ∧
    (loop_overhead_adjustment r.benchmark = none →
      compare_one cpis freq r = some
        { name := r.benchmark, description := r.description,
          real_latency_ns := r.instruction_latency_ns,
          real_r_squared := r.r_squared, sim_cpi := cpi,
          sim_latency_ns := cpi / freq,
          error := calculate_error (cpi / freq) r.instruction_latency_ns,
          calibrated := r.calibrated }) := by
  constructor
  · intro cal_insts sim_insts h
    simp [compare_one, hc, h]
  · intro h
    simp [compare_one, hc, h]

/-- Witness for C5: the spec's own example — `loadheavy` with adjustment
`(20, 23)` and a raw latency of 2.3 ns/instruction is normalized to exactly
2.0 ns/instruction before the error computation. -/
theorem compare_one_normalization_witness :
    compare_one (fun n => if n = "loadheavy" then some 7 else none) (7 / 2)
      ⟨"loadheavy", "d", 2.3, 1, true⟩ = some
      { name := "loadheavy", description := "d",
        real_latency_ns := (2.3 : ℚ) * (20 : ℕ) / (23 : ℕ),
        real_r_squared := 1, sim_cpi := 7,
        sim_latency_ns := 7 / (7 / 2),
        error := calculate_error (7 / (7 / 2)) ((2.3 : ℚ) * (20 : ℕ) / (23 : ℕ)),
        calibrated := true } ∧
    (2.3 : ℚ) * (20 : ℕ) / (23 : ℕ) = 2 :=
  ⟨(compare_one_normalization (fun n => if n = "loadheavy" then some 7 else none)
      (7 / 2) ⟨"loadheavy", "d", 2.3, 1, true⟩ 7 (by simp)).1 20 23 rfl,
   by push_cast; norm_num⟩

/-- C6 counterexample: after 3 consecutive timeouts with `max_retries = 2`
the acquirer does substitute the static fallback CPI for `atax` (0.41), but
the resulting record is NOT excluded from the calibrated-only mean-error
aggregate: with a calibrated hardware baseline of 1 ns/instruction, the
summary average error is exactly the fallback record's error 309/41 (the
code's `calibrated` flag reflects the hardware baseline, not the simulator
CPI's provenance, which is not recorded at all). -/
theorem fallback_included_in_calibrated_aggregate :
    acquire_cpi (List.lookup "atax" fallback_cpis)
      [.timeout, .timeout, .timeout] = some 0.41 ∧
    summary_average_error (compare_benchmarks [⟨"atax", "d", 1, 1, true⟩]
      (fun n => if n = "atax" then
        acquire_cpi (List.lookup "atax" fallback_cpis)
          [.timeout, .timeout, .timeout] else none) (7 / 2)) =
      PFloat.fin (309 / 41) ∧
    PFloat.fin ((309 : ℚ) / 41) ≠ PFloat.fin 0 := by
  have hlk : List.lookup "atax" fallback_cpis = some 0.41 := by
    simp [List.lookup, fallback_cpis]
  have hacq : acquire_cpi (List.lookup "atax" fallback_cpis)
      [.timeout, .timeout, .timeout] = some 0.41 := by
    rw [hlk]
    rfl
  refine ⟨hacq, ?_, by norm_num⟩
  have hadj : loop_overhead_adjustment "atax" = none := by
    simp [loop_overhead_adjustment]
  have hcmp : compare_benchmarks [⟨"atax", "d", 1, 1, true⟩]
      (fun n => if n = "atax" then
        acquire_cpi (List.lookup "atax" fallback_cpis)
          [.timeout, .timeout, .timeout] else none) (7 / 2) =
      [⟨"atax", "d", 1, 1, 41/100, 41/350, PFloat.fin (309/41), true⟩] := by
    norm_num [compare_benchmarks, compare_one, hacq, hadj, calculate_error,
      pymin, pyabs, List.filterMap_cons]
  rw [hcmp]
  norm_num [summary_average_error, psum, PFloat.add, PFloat.divNat]

/-- C6 amended: after 3 consecutive timeouts with `max_retries = 2` the
acquirer substitutes the configured static fallback CPI; no provenance is
recorded with the value, and a comparison record is included in the
calibrated-only mean-error aggregate exactly when its `calibrated` flag —
which reflects only the hardware baseline — is set, regardless of where its
simulator CPI came from. -/
theorem acquire_fallback_on_timeouts (fallback : ℚ)
    (c : BenchmarkComparison) (hc : c.calibrated = true) :
    acquire_cpi (some fallback) [.timeout, .timeout, .timeout] = some fallback ∧
    summary_average_error [c] = c.error.divNat 1 := by
  refine ⟨rfl, ?_⟩
  simp [summary_average_error, hc, psum, PFloat.add]
  cases c.error with
  | inf => rfl
  | fin q => simp [PFloat.add, PFloat.divNat]

/-- Witness for C6's amended claim at fallback CPI 0.41 and a concrete
calibrated comparison record. -/
theorem acquire_fallback_on_timeouts_witness :
    acquire_cpi (some 0.41) [.timeout, .timeout, .timeout] = some 0.41 ∧
    summary_average_error [⟨"atax", "d", 1, 1, 41/350, 41/350,
      PFloat.fin (309 / 41), true⟩] =
      (PFloat.fin (309 / 41)).divNat 1 :=
  acquire_fallback_on_timeouts 0.41
    ⟨"atax", "d", 1, 1, 41/350, 41/350, PFloat.fin (309 / 41), true⟩ rfl

/-- Looking a key up in a keyed `filterMap` yields the choice function's
value at that key, as soon as the key occurs in the source list. -/
lemma lookup_filterMap_choice (f : String → Option ℚ) (l : List (String × ℚ))
    (key : String) (v : ℚ) (hkey : key ∈ l.map Prod.fst) (hf : f key = some v) :
    List.lookup key (l.filterMap (fun p => (f p.1).map (fun c => (p.1, c)))) =
      some v := by
  induction l with
  | nil => simp at hkey
  | cons a t ih =>
    by_cases hak : a.1 = key
    · rw [List.filterMap_cons, hak, hf]
      simp [List.lookup]
    · have hkey' : key ∈ t.map Prod.fst := by
        rcases List.mem_map.mp hkey with ⟨q, hq, hq1⟩
        rcases List.mem_cons.mp hq with hqa | hqt
        · exact absurd (hqa ▸ hq1) hak
        · exact hq1 ▸ List.mem_map_of_mem Prod.fst hqt
      rw [List.filterMap_cons]
      cases hfa : f a.1 with
      | none => simpa using ih hkey'
      | some c =>
        have hne : (key == a.1) = false := beq_eq_false_iff_ne.mpr (Ne.symm hak)
        simp only [Option.map_some']
        rw [List.lookup]
        simp only [hne]
        exact ih hkey'

/-- C4: the Suite Merger resolves each benchmark by fixed precedence — for a
benchmark designated memory-latency-sensitive that received a CPI in both the
D-cache and the no-cache suite runs, the merged map holds exactly the D-cache
value, never the no-cache one; the per-suite maps are separate inputs, so the
result cannot depend on collection order, and no averaging occurs. -/
theorem merged_cpi_dcache_precedence
    (dcache_cpis polybench_cpis embench_cpis no_cache_cpis : String → Option ℚ)
    (name : String) (v w : ℚ)
    (hmem : name ∈ dcache_benchmarks)
    (hkey : name ∈ fallback_cpis.map Prod.fst)
    (hdc : dcache_cpis name = some v) (_hnc : no_cache_cpis name = some w) :
    List.lookup name (get_simulator_cpi_for_benchmarks dcache_cpis
      polybench_cpis embench_cpis no_cache_cpis) = some v := by
  have hchoice : merge_choice dcache_cpis polybench_cpis embench_cpis
      no_cache_cpis name = some v := by
    simp [merge_choice, hmem, hdc]
  have hlook : List.lookup name (merge_cpis dcache_cpis polybench_cpis
      embench_cpis no_cache_cpis) = some v :=
    lookup_filterMap_choice _ fallback_cpis name v hkey hchoice
  have hne : merge_cpis dcache_cpis polybench_cpis embench_cpis
      no_cache_cpis ≠ [] := by
    intro h
    rw [h] at hlook
    exact Option.noConfusion hlook
  unfold get_simulator_cpi_for_benchmarks
  rw [if_neg hne]
  exact hlook

/-- Witness for C4: `memorystrided` present in both the D-cache map (CPI 9)
and the no-cache map (CPI 5) merges to the D-cache value 9. -/
theorem merged_cpi_dcache_precedence_witness :
    List.lookup "memorystrided" (get_simulator_cpi_for_benchmarks
      (fun n => if n = "memorystrided" then some 9 else none) (fun _ => none)
      (fun _ => none) (fun n => if n = "memorystrided" then some 5 else none)) =
      some 9 :=
  merged_cpi_dcache_precedence _ _ _ _ "memorystrided" 9 5
    (by simp [dcache_benchmarks]) (by simp [fallback_cpis]) (by simp) (by simp)

/-- C10: every key of the merged CPI map comes from the static fallback
table, so a benchmark absent from the fallback table never appears in the
merged map even if some suite parsed a CPI for it; and when no live CPI was
parsed for any benchmark at all, the merged map is the entire fallback
table. -/
theorem merged_keys_subset_and_fallthrough
    (dcache_cpis polybench_cpis embench_cpis no_cache_cpis : String → Option ℚ) :
    (∀ p ∈ get_simulator_cpi_for_benchmarks dcache_cpis polybench_cpis
        embench_cpis no_cache_cpis, p.1 ∈ fallback_cpis.map Prod.fst) ∧
    ((∀ s, dcache_cpis s = none) → (∀ s, polybench_cpis s = none) →
     (∀ s, embench_cpis s = none) → (∀ s, no_cache_cpis s = none) →
      get_simulator_cpi_for_benchmarks dcache_cpis polybench_cpis embench_cpis
        no_cache_cpis = fallback_cpis) := by
  constructor
  · intro p hp
    simp only [get_simulator_cpi_for_benchmarks] at hp
    split at hp
    · exact List.mem_map_of_mem Prod.fst hp
    · obtain ⟨a, ha, hfa⟩ := List.mem_filterMap.mp hp
      obtain ⟨c, _, hpc⟩ := Option.map_eq_some'.mp hfa
      subst hpc
      exact List.mem_map.mpr ⟨a, ha, rfl⟩
  · intro h1 h2 h3 h4
    have hm : merge_cpis dcache_cpis polybench_cpis embench_cpis
        no_cache_cpis = [] := by
      unfold merge_cpis
      rw [List.filterMap_eq_nil_iff]
      intro a _
      simp [merge_choice, h1, h2, h3, h4]
    unfold get_simulator_cpi_for_benchmarks
    simp [hm]

/-- Witness for C10: with no live CPIs at all, the merged map is the whole
fallback table, whose first entry is `("arithmetic", 0.27)`. -/
theorem merged_keys_subset_and_fallthrough_witness :
    get_simulator_cpi_for_benchmarks (fun _ => none) (fun _ => none)
      (fun _ => none) (fun _ => none) = fallback_cpis ∧
    ("arithmetic", (0.27 : ℚ)) ∈ get_simulator_cpi_for_benchmarks
      (fun _ => none) (fun _ => none) (fun _ => none) (fun _ => none) ∧
    ("arithmetic" : String) ∈ fallback_cpis.map Prod.fst := by
  have hall := merged_keys_subset_and_fallthrough
    (fun _ => none) (fun _ => none) (fun _ => none) (fun _ => none)
  have heq := hall.2 (fun _ => rfl) (fun _ => rfl) (fun _ => rfl) (fun _ => rfl)
  have hmem : ("arithmetic", (0.27 : ℚ)) ∈ get_simulator_cpi_for_benchmarks
      (fun _ => none) (fun _ => none) (fun _ => none) (fun _ => none) := by
    rw [heq]
    simp [fallback_cpis]
  exact ⟨heq, hmem, hall.1 _ hmem⟩

/-- C8: for lists of at least 3 timed values the trimmed mean equals the
plain mean of the sorted list with the bottom `⌊0.2·n⌋` and top `⌊0.2·n⌋`
elements removed; for shorter non-empty lists it is the plain mean of all
elements. -/
theorem trimmed_mean_correct (v : List ℚ) (_hv : v ≠ []) :
    (3 ≤ v.length → trimmed_mean v = trimmed_mean_claim v) ∧
    (v.length < 3 → trimmed_mean v = v.sum / v.length) := by
  constructor
  · intro h3
    have hlen : (List.insertionSort (fun a b => a ≤ b) v).length = v.length :=
      List.length_insertionSort _ v
    simp only [trimmed_mean, trimmed_mean_claim, hlen,
      if_neg (Nat.not_lt.mpr h3)]
    rcases Nat.eq_zero_or_pos (v.length / 5) with h0 | hpos
    · rw [h0]
      simp only [List.drop_zero, List.rdrop_zero, lt_irrefl, if_false]
      have hne : List.insertionSort (fun a b => a ≤ b) v ≠ [] := by
        intro h
        rw [h] at hlen
        simp at hlen
        omega
      rw [if_pos hne]
    · have h5 : 5 ≤ v.length := by omega
      have hsub : v.length - v.length / 5 - v.length / 5 =
          v.length - 2 * (v.length / 5) := by omega
      rw [List.rdrop, List.length_drop, hlen, hsub, if_pos hpos]
      have hne : (List.drop (v.length / 5)
          (List.insertionSort (fun a b => a ≤ b) v)).take
          (v.length - 2 * (v.length / 5)) ≠ [] := by
        apply List.ne_nil_of_length_pos
        rw [List.length_take, List.length_drop, hlen]
        have : 0 < v.length - 2 * (v.length / 5) := by omega
        omega
      rw [if_pos hne]
  · intro h
    simp [trimmed_mean, h]

/-- Witness for C8 at `[5, 1, 3, 2, 4]` (5 elements, one trimmed from each
end) and `[1, 2]` (plain mean). -/
theorem trimmed_mean_correct_witness :
    trimmed_mean [5, 1, 3, 2, 4] = trimmed_mean_claim [5, 1, 3, 2, 4] ∧
    trimmed_mean [1, 2] = ([1, 2] : List ℚ).sum / ([1, 2] : List ℚ).length :=
  ⟨(trimmed_mean_correct [5, 1, 3, 2, 4] (by simp)).1 (by simp),
   (trimmed_mean_correct [1, 2] (by simp)).2 (by simp)⟩

/-- C2: on exact noiseless data `time_ms = 2.0 + 0.0001·instructions` with at
least 3 data points and at least two distinct instruction counts, calibration
returns latency 100 ns/instruction, overhead 2.0 ms and R² = 1 exactly; and
in every non-degenerate case with positive total variance the regression's
slope, intercept and R² equal the specification's reference formulas
`(nΣxy − ΣxΣy)/(nΣx² − (Σx)²)`, `(Σy − slope·Σx)/n` and `1 − SS_res/SS_tot`. -/
theorem calibrate_exact_regression (bench : String) (rs : ℕ) (xs : List ℕ)
    (hlen : 3 ≤ xs.length) (a b : ℕ) (ha : a ∈ xs) (hb : b ∈ xs)
    (hab : a ≠ b) :
    calibrate_from_data bench
      (xs.map (fun v => ⟨rs, some v, 2 + (v : ℚ) / 10000⟩)) =
      some ⟨bench, 100, 2, 1⟩ ∧
    (∀ x y : List ℚ, x.length = y.length →
      ¬ pyabs ((x.length : ℚ) * (x.map (fun c => c * c)).sum -
        x.sum * x.sum) < 1 / 10 ^ 15 →
      0 < (y.map (fun yi => (yi - y.sum / (y.length : ℚ)) ^ 2)).sum →
      linear_regression x y =
        (spec_slope x y, spec_intercept x y, spec_r2 x y)) := by
  constructor
  · have hinstr : (xs.map (fun v =>
        (⟨rs, some v, 2 + (v : ℚ) / 10000⟩ : Measurement))).filterMap
        (fun m => m.instructions) = xs :=
      filterMap_instructions rs _ xs
    have htime : (xs.map (fun v =>
        (⟨rs, some v, 2 + (v : ℚ) / 10000⟩ : Measurement))).map
        (fun m => m.time_ms) = xs.map (fun v : ℕ => 2 + (v : ℚ) / 10000) := by
      rw [List.map_map]
      rfl
    simp only [calibrate_from_data, List.length_map, hinstr, htime]
    rw [if_neg (by omega), if_pos hlen]
    have hy : xs.map (fun v : ℕ => 2 + (v : ℚ) / 10000) =
        (xs.map (fun i : ℕ => (i : ℚ))).map (fun t => 2 + (1 / 10000) * t) := by
      rw [List.map_map]
      apply List.map_congr_left
      intro v _
      show 2 + (v : ℚ) / 10000 = 2 + (1 / 10000) * (v : ℚ)
      ring
    rw [hy]
    have hbridge : ((xs.map (fun i : ℕ => (i : ℚ))).length : ℚ) *
        (((xs.map (fun i : ℕ => (i : ℚ))).map (fun c => c * c)).sum) -
        (xs.map (fun i : ℕ => (i : ℚ))).sum * (xs.map (fun i : ℕ => (i : ℚ))).sum =
        (xs.length : ℚ) * (xs.map (fun v : ℕ => (v : ℚ) * (v : ℚ))).sum -
        (xs.map (fun v : ℕ => (v : ℚ))).sum * (xs.map (fun v : ℕ => (v : ℚ))).sum := by
      rw [List.length_map, List.map_map]
      rfl
    have hd1 : 1 ≤ ((xs.map (fun i : ℕ => (i : ℚ))).length : ℚ) *
        (((xs.map (fun i : ℕ => (i : ℚ))).map (fun c => c * c)).sum) -
        (xs.map (fun i : ℕ => (i : ℚ))).sum * (xs.map (fun i : ℕ => (i : ℚ))).sum := by
      rw [hbridge]
      exact d_ge_one xs a b ha hb hab
    have hne : xs.map (fun i : ℕ => (i : ℚ)) ≠ [] := by
      apply List.ne_nil_of_length_pos
      rw [List.length_map]
      omega
    rw [linear_regression_affine (xs.map (fun i : ℕ => (i : ℚ))) 2 (1 / 10000)
      (by norm_num) hd1 hne]
    norm_num
  · intro x y hxy hnd htot
    have hcast : ((y.length : ℚ)) = ((x.length : ℚ)) := by rw [hxy]
    simp only [linear_regression]
    rw [if_neg hnd]
    unfold spec_r2 spec_intercept spec_slope
    rw [hcast] at htot
    rw [hcast]
    rw [if_pos htot]

/-- Witness for C2 at instruction counts `[100000, 500000, 1000000]` with
`time_ms = 2 + instructions/10000`. -/
theorem calibrate_exact_regression_witness :
    calibrate_from_data "edn"
      ([100000, 500000, 1000000].map
        (fun v => ⟨1, some v, 2 + (v : ℚ) / 10000⟩)) =
      some ⟨"edn", 100, 2, 1⟩ :=
  (calibrate_exact_regression "edn" 1 [100000, 500000, 1000000] (by decide)
    100000 500000 (by decide) (by decide) (by decide)).1

end M2Sim
